import Mathlib

/-!
Verification of the owls-hep calculation core against its specification.

The Python source is shallowly embedded: expression strings become `String`
values manipulated through executable `List Char` scans, the value algebra of
`owls_hep/algebra.py` becomes a recursive `Value` type with exceptions modelled
by `Except String`, histograms (`ROOT.TH1`) become explicit bin-content records
(underflow, regular bins, overflow) over `ℚ`, and `math.sqrt` becomes
`Real.sqrt`.  Python `float` arithmetic is modelled by exact `ℚ`/`ℝ`
arithmetic, so "within floating tolerance" statements become exact equalities.
-/

set_option autoImplicit false
set_option linter.unusedVariables false

/-! ### Expression engine (`owls_hep/expression.py`) -/

/-- Worker for Python's `str.replace(pat, rep)`: left-to-right, non-overlapping
replacement.  `skip` counts characters still to consume from an occurrence
already matched (and replaced), so the scan resumes after the occurrence. -/
def replaceAllGo (pat rep : List Char) : List Char → Nat → List Char
  | [], _ => []
  | _ :: rest, skip + 1 => replaceAllGo pat rep rest skip
  | c :: rest, 0 =>
    if pat ≠ [] ∧ pat.isPrefixOf (c :: rest) then
      rep ++ replaceAllGo pat rep rest (pat.length - 1)
    else
      c :: replaceAllGo pat rep rest 0

/-- Python's `s.replace(pat, rep)` for a non-empty pattern. -/
def replaceAll (pat rep s : List Char) : List Char :=
  replaceAllGo pat rep s 0

/-- Embedding of `expression.normalized`: translates an expression to the
syntax used by Pandas' `DataFrame.eval`, replacing `!` by `~`, `&&` by `&`
and `||` by `|`, in that order (the order of the Python `.replace` chain). -/
def normalized (expression : String) : String :=
  ⟨replaceAll ['|', '|'] ['|']
    (replaceAll ['&', '&'] ['&']
      (replaceAll ['!'] ['~'] expression.data))⟩

/-- Embedding of `expression._combined`: parenthesizes both operands and joins
them with the operator. -/
def combined (expression_1 expression_2 : String) (operator : String) : String :=
  "((" ++ expression_1 ++ ") " ++ operator ++ " (" ++ expression_2 ++ "))"

/-- Embedding of `expression.multiplied`. -/
def multiplied (expression_1 expression_2 : String) : String :=
  combined expression_1 expression_2 "*"

/-- Substring test: does `pat` occur (contiguously) inside `s`? -/
def hasSub (pat : List Char) : List Char → Bool
  | [] => pat.isPrefixOf []
  | c :: rest => pat.isPrefixOf (c :: rest) || hasSub pat rest

/-- Python's `\w` character class, restricted to ASCII (the class of characters
appearing in owls-hep expressions). -/
def isWordChar (c : Char) : Bool :=
  c.isAlpha || c.isDigit || c = '_'

/-- Start-of-identifier class `[A-Za-z_]` of `expression._property_regex`. -/
def isIdentStart (c : Char) : Bool :=
  c.isAlpha || c = '_'

/-- Python's `\s` character class, restricted to ASCII. -/
def isPySpace (c : Char) : Bool :=
  c = ' ' || c = '\t' || c = '\n' || c = '\r' || c = '\x0b' || c = '\x0c'

/-- Worker embedding `_property_regex.finditer` for the pattern
`[A-Za-z_]\w*(?!\w*\s*\()`: at each position, a maximal identifier-shaped run
matches unless it is followed (after optional word characters and whitespace,
which for a maximal run degenerates to optional whitespace) by `(`; on a
failed match the engine retries from the next character, on a successful match
it continues after the run (`skip` consumes the tail of the matched run). -/
def identScanGo : List Char → Nat → List String
  | [], _ => []
  | _ :: rest, skip + 1 => identScanGo rest skip
  | c :: rest, 0 =>
    if isIdentStart c then
      if ((rest.dropWhile isWordChar).dropWhile isPySpace).head? = some '(' then
        identScanGo rest 0
      else
        String.mk (c :: rest.takeWhile isWordChar)
          :: identScanGo rest (rest.takeWhile isWordChar).length
    else
      identScanGo rest 0

/-- Identifier scan over a whole expression string. -/
def identScan (s : List Char) : List String :=
  identScanGo s 0

/-- Embedding of `expression.properties`: the set of column names referenced
by an expression (identifier tokens that are not function calls). -/
def properties (expression : String) : Finset String :=
  (identScan expression.data).toFinset

/-! #### Lemmas about `replaceAll` used for the `normalized` idempotence claim -/

/-- If the pattern does not occur in `s`, replacement leaves `s` unchanged. -/
theorem replaceAll_of_not_hasSub (pat rep : List Char) (s : List Char)
    (h : hasSub pat s = false) : replaceAll pat rep s = s := by
  unfold replaceAll
  induction s with
  | nil => simp [replaceAllGo]
  | cons c rest ih =>
    rw [hasSub] at h
    simp only [Bool.or_eq_false_iff] at h
    rw [replaceAllGo]
    have hnp : ¬ (pat ≠ [] ∧ pat.isPrefixOf (c :: rest)) := by
      intro hcon
      rw [hcon.2] at h
      exact absurd h.1 (by simp)
    rw [if_neg hnp]
    rw [ih h.2]

/-- Characters of the replaced string come from the original string or from
the replacement. -/
theorem mem_replaceAllGo (pat rep : List Char) (s : List Char) (skip : Nat)
    (c : Char) (hmem : c ∈ replaceAllGo pat rep s skip) : c ∈ s ∨ c ∈ rep := by
  induction s generalizing skip with
  | nil => simp [replaceAllGo] at hmem
  | cons c' rest ih =>
    match skip with
    | skip + 1 =>
      rcases ih skip hmem with hr | hr
      · exact Or.inl (List.mem_cons_of_mem _ hr)
      · exact Or.inr hr
    | 0 =>
      rw [replaceAllGo] at hmem
      by_cases hp : pat ≠ [] ∧ pat.isPrefixOf (c' :: rest)
      · rw [if_pos hp] at hmem
        rcases List.mem_append.mp hmem with hr | hr
        · exact Or.inr hr
        · rcases ih _ hr with hr' | hr'
          · exact Or.inl (List.mem_cons_of_mem _ hr')
          · exact Or.inr hr'
      · rw [if_neg hp] at hmem
        rcases List.mem_cons.mp hmem with hr | hr
        · exact Or.inl (by simp [hr])
        · rcases ih _ hr with hr' | hr'
          · exact Or.inl (List.mem_cons_of_mem _ hr')
          · exact Or.inr hr'

/-- Replacing a single-character pattern eliminates that character, provided
the replacement does not contain it. -/
theorem not_mem_replaceAll_single (p : Char) (rep : List Char) (s : List Char)
    (hrep : p ∉ rep) : p ∉ replaceAll [p] rep s := by
  unfold replaceAll
  generalize hskip : 0 = skip
  clear hskip
  induction s generalizing skip with
  | nil => simp [replaceAllGo]
  | cons c rest ih =>
    match skip with
    | skip + 1 => exact ih skip
    | 0 =>
      rw [replaceAllGo]
      by_cases hp : ([p] : List Char) ≠ [] ∧ List.isPrefixOf [p] (c :: rest)
      · rw [if_pos hp]
        intro hmem
        rcases List.mem_append.mp hmem with hr | hr
        · exact hrep hr
        · exact ih _ hr
      · rw [if_neg hp]
        intro hmem
        rcases List.mem_cons.mp hmem with hr | hr
        · apply hp
          refine ⟨by simp, ?_⟩
          simp [List.isPrefixOf, hr]
        · exact ih _ hr

/-- A single-character pattern is absent as a substring when absent as an
element. -/
theorem hasSub_single_eq_false (p : Char) (s : List Char) (h : p ∉ s) :
    hasSub [p] s = false := by
  induction s with
  | nil => simp [hasSub, List.isPrefixOf]
  | cons c rest ih =>
    rw [hasSub]
    simp only [Bool.or_eq_false_iff]
    constructor
    · have hc : c ≠ p := fun hcp => h (by simp [hcp])
      simp [List.isPrefixOf]
      intro hcp
      exact absurd hcp.symm hc
    · exact ih (fun hmem => h (List.mem_cons_of_mem _ hmem))

/-- Characters of `replaceAll pat rep s` come from `s` or from `rep`. -/
theorem mem_replaceAll (pat rep : List Char) (s : List Char) (c : Char)
    (hmem : c ∈ replaceAll pat rep s) : c ∈ s ∨ c ∈ rep :=
  mem_replaceAllGo pat rep s 0 c hmem

/-- C6 counterexample: `normalized` is not idempotent on every expression
string; on `"&&&&"` the first pass collapses the four ampersands to two and a
second pass collapses those to one, so
`normalized (normalized "&&&&") ≠ normalized "&&&&"`. -/
theorem normalized_not_idempotent_on_ampersand_run :
    normalized (normalized "&&&&") ≠ normalized "&&&&" := by decide

/-- C6 (amended): `normalized` is idempotent on every expression whose
normalized form contains no remaining `&&` or `||` substring — in particular
on all expressions in which `&` and `|` appear only in runs of length at most
two, i.e. as the boolean operators the translation targets.  (The exception
forced by the counterexample: runs of three or more `&` or `|` collapse
further under a second application.) -/
theorem normalized_idempotent_of_no_residual_runs (e : String)
    (h1 : hasSub ['&', '&'] (normalized e).data = false)
    (h2 : hasSub ['|', '|'] (normalized e).data = false) :
    normalized (normalized e) = normalized e := by
  have hbang : '!' ∉ (normalized e).data := by
    intro hmem
    have hmem' : '!' ∈ replaceAll ['|', '|'] ['|']
        (replaceAll ['&', '&'] ['&'] (replaceAll ['!'] ['~'] e.data)) := hmem
    rcases mem_replaceAll _ _ _ _ hmem' with h' | h'
    · rcases mem_replaceAll _ _ _ _ h' with h'' | h''
      · exact not_mem_replaceAll_single '!' ['~'] e.data (by decide) h''
      · exact absurd h'' (by decide)
    · exact absurd h' (by decide)
  generalize hgen : normalized e = s at h1 h2 hbang ⊢
  have hstep : normalized s = ⟨replaceAll ['|', '|'] ['|']
      (replaceAll ['&', '&'] ['&'] (replaceAll ['!'] ['~'] s.data))⟩ := rfl
  rw [hstep]
  rw [replaceAll_of_not_hasSub _ _ _ (hasSub_single_eq_false '!' _ hbang)]
  rw [replaceAll_of_not_hasSub _ _ _ h1]
  rw [replaceAll_of_not_hasSub _ _ _ h2]

/-- Witness for C6 (amended) at the concrete expression `"a && b || !c"`. -/
theorem normalized_idempotent_witness :
    hasSub ['&', '&'] (normalized "a && b || !c").data = false ∧
    hasSub ['|', '|'] (normalized "a && b || !c").data = false ∧
    normalized (normalized "a && b || !c") = normalized "a && b || !c" :=
  ⟨by decide, by decide,
    normalized_idempotent_of_no_residual_runs "a && b || !c" (by decide) (by decide)⟩

/-! ### Region model (`owls_hep/region.py`) -/

/-- Embedding of `region.Variation`: a pure transform of a region's
`(selection, weight)` pair.  `state` embeds the tuple returned by `state()`
and `source` the text returned by `getsource(self.__call__)`; together they
form the variation's hash (`Variation.__hash__` hashes
`(self.state(), getsource(self.__call__))` because behaviour, not identity,
must determine hash equality). -/
structure Variation where
  state : List String
  source : String
  apply : String × String → String × String

/-- The hash tuple of a variation: `(state(), getsource(__call__))`. -/
def Variation.hashState (v : Variation) : List String × String :=
  (v.state, v.source)

/-- Embedding of `region.Reweighted`: stores `normalized weight`, reports it
as its state, and multiplies it into the region weight on application. -/
def Reweighted (weight : String) : Variation where
  state := [normalized weight]
  source := "Reweighted.__call__"
  apply := fun sw => (sw.1, multiplied sw.2 (normalized weight))

/-- Embedding of `region.Region`.  `variations` starts empty at construction
and grows only through `varied`. -/
structure Region where
  selection : String
  weight : String
  label : String
  metadata : String
  weighted : Bool
  variations : List Variation

/-- Embedding of `Region.varied`: copy-on-write append of one variation. -/
def Region.varied (r : Region) (variation : Variation) : Region :=
  { r with variations := r.variations ++ [variation] }

/-- Embedding of `Region.weighted` (the method): copy-on-write change of the
weighting flag, returning `self` unchanged when there is no change. -/
def Region.setWeighted (r : Region) (weighting_enabled : Bool) : Region :=
  if weighting_enabled = r.weighted then r
  else { r with weighted := weighting_enabled }

/-- The `for v in self._variations` loop of `Region.selection_weight`. -/
def applyVariations : List Variation → String × String → String × String
  | [], sw => sw
  | v :: rest, sw => applyVariations rest (v.apply sw)

/-- Embedding of `Region.selection_weight`: applies every variation in
insertion order to the base pair, then blanks the weight if the region is
unweighted. -/
def Region.selection_weight (r : Region) : String × String :=
  let sw := applyVariations r.variations (r.selection, r.weight)
  if r.weighted then sw else (sw.1, "")

/-- The tuple fed to `hash()` by `Region.__hash__`:
`(self._selection, self._weight, self._weighted, self._variations)`, with
each variation contributing its own hash tuple.  Equal tuples are what the
persistent cache relies on for key collisions. -/
def Region.hashState (r : Region) :
    String × String × Bool × List (List String × String) :=
  (r.selection, r.weight, r.weighted, r.variations.map Variation.hashState)

/-! ### Process model (`owls_hep/process.py`) -/

/-- Embedding of `process.Patch`: only the fingerprint-relevant face is
modelled (`state()` and `getsource(self.__call__)`); `__call__` itself and
`properties()` act on loaded DataFrames, which are outside this embedding. -/
structure Patch where
  state : List String
  source : String

/-- The hash tuple of a patch: `(state(), getsource(__call__))`. -/
def Patch.hashState (p : Patch) : List String × String :=
  (p.state, p.source)

/-- Embedding of `process.Process`: data-source fields plus style metadata.
`patches` starts empty at construction and grows only through `patched`. -/
structure Process where
  files : List String
  tree : String
  label : String
  line_color : Int
  fill_color : Int
  marker_style : Option Int
  metadata : Option String
  patches : List Patch

/-- Embedding of `Process.patched`: copy-on-write append of one patch. -/
def Process.patched (p : Process) (patch : Patch) : Process :=
  { p with patches := p.patches ++ [patch] }

/-- Embedding of `Process.retreed`: copy-on-write change of the tree. -/
def Process.retreed (p : Process) (tree : String) : Process :=
  { p with tree := tree }

/-- The tuple fed to `hash()` by `Process.__hash__`:
`(self._files, self._tree, self._patches)` — "only files, tree, and patches
since those are all that really matter for data loading". -/
def Process.hashState (p : Process) :
    List String × String × List (List String × String) :=
  (p.files, p.tree, p.patches.map Patch.hashState)

/-! ### Claim C1: `selection_weight` folds variations in insertion order -/

/-- The variation loop is a left fold. -/
theorem applyVariations_eq_foldl (vs : List Variation) (sw : String × String) :
    applyVariations vs sw = vs.foldl (fun sw v => v.apply sw) sw := by
  induction vs generalizing sw with
  | nil => rfl
  | cons v rest ih => rw [applyVariations, List.foldl_cons, ih]

/-- Folding `varied` accumulates variations at the end, in order, and leaves
every other field unchanged. -/
theorem foldl_varied_variations (r : Region) (vs : List Variation) :
    (vs.foldl Region.varied r) =
      { r with variations := r.variations ++ vs } := by
  induction vs generalizing r with
  | nil => simp
  | cons v rest ih =>
    rw [List.foldl_cons, ih]
    simp [Region.varied]

/-- C1 counterexample: for a region whose weighting flag is off,
`selection_weight` does not return the plain fold of the variations over the
base pair — the folded weight is discarded in favour of the empty string. -/
theorem selection_weight_not_fold_when_unweighted :
    ((Region.mk "x > 0" "w" "" "" false []).varied (Reweighted "a")).selection_weight ≠
      ((Region.mk "x > 0" "w" "" "" false []).varied (Reweighted "a")).variations.foldl
        (fun sw v => v.apply sw)
        ("x > 0", "w") := by
  decide

/-- C1 (amended): for every region and every sequence of variations added via
`varied`, `selection_weight` returns the left-to-right, insertion-order fold
of all variations over the base `(selection, weight)` pair — with the weight
component then replaced by the empty string when the region's weighting flag
is off — and there exist a region and two non-commuting variations for which
the two application orders give different results. -/
theorem selection_weight_folds_variations (r : Region) (vs : List Variation) :
    (vs.foldl Region.varied r).selection_weight =
      (let sw := (r.variations ++ vs).foldl (fun sw v => v.apply sw)
        (r.selection, r.weight)
       if r.weighted then sw else (sw.1, "")) ∧
    ∃ (r0 : Region) (v1 v2 : Variation),
      ((r0.varied v1).varied v2).selection_weight ≠
        ((r0.varied v2).varied v1).selection_weight := by
  constructor
  · rw [foldl_varied_variations]
    rw [Region.selection_weight]
    rw [applyVariations_eq_foldl]
  · refine ⟨Region.mk "s" "w" "" "" true [], Reweighted "a", Reweighted "b", ?_⟩
    decide

/-! ### Claim C2: cache fingerprints of Process and Region -/

/-- C2 counterexample: two regions equal in selection, weight and variations
but differing in the weighting flag have different hash tuples — the Region
fingerprint is not computed from selection, weight and variations alone. -/
theorem region_fingerprint_sensitive_to_weighted_flag :
    (Region.mk "s" "w" "L" "m" true []).selection =
        (Region.mk "s" "w" "L" "m" false []).selection ∧
    (Region.mk "s" "w" "L" "m" true []).weight =
        (Region.mk "s" "w" "L" "m" false []).weight ∧
    (Region.mk "s" "w" "L" "m" true []).variations =
        (Region.mk "s" "w" "L" "m" false []).variations ∧
    (Region.mk "s" "w" "L" "m" true []).hashState ≠
        (Region.mk "s" "w" "L" "m" false []).hashState := by
  refine ⟨rfl, rfl, rfl, ?_⟩
  decide

/-- C2 (amended): the Process fingerprint is computed only from files, tree
and patches, and the Region fingerprint only from selection, weight, the
weighting flag and variations; two values agreeing on those fields have
identical hashes no matter how their label, style or metadata fields differ. -/
theorem hashState_ignores_style_fields (p1 p2 : Process) (r1 r2 : Region)
    (hf : p1.files = p2.files) (ht : p1.tree = p2.tree)
    (hp : p1.patches = p2.patches)
    (hs : r1.selection = r2.selection) (hw : r1.weight = r2.weight)
    (hwf : r1.weighted = r2.weighted) (hv : r1.variations = r2.variations) :
    p1.hashState = p2.hashState ∧ r1.hashState = r2.hashState := by
  constructor
  · rw [Process.hashState, Process.hashState, hf, ht, hp]
  · rw [Region.hashState, Region.hashState, hs, hw, hwf, hv]

/-- Witness for C2 (amended): differently styled but data-identical values
share a fingerprint. -/
theorem hashState_ignores_style_fields_witness :
    (Process.mk ["a.root"] "nominal" "Signal" 1 0 none none []).hashState =
      (Process.mk ["a.root"] "nominal" "Background" 2 3 (some 20) none []).hashState ∧
    (Region.mk "x > 0" "w" "SR" "m1" true []).hashState =
      (Region.mk "x > 0" "w" "CR" "m2" true []).hashState :=
  hashState_ignores_style_fields _ _ _ _ rfl rfl rfl rfl rfl rfl rfl

/-! ### Value algebra (`owls_hep/algebra.py`)

Scalars are `ℚ` (exact stand-in for Python floats), histograms are explicit
bin-content records, and uncertainty 4-tuples have optional components, each
again a value (the Python code recurses generically).  Python exceptions are
modelled by `Except String`. -/

/-- A `ROOT.TH1` histogram reduced to its bin contents: underflow bin,
regular bins 1..n, overflow bin. -/
structure Hist where
  under : ℚ
  bins : List ℚ
  over : ℚ

/-- `TH1.Scale`: multiplies every bin content (underflow and overflow
included) by the coefficient. -/
def histScale (coefficient : ℚ) (h : Hist) : Hist :=
  ⟨coefficient * h.under, h.bins.map (fun x => coefficient * x),
    coefficient * h.over⟩

/-- `result.Add(h1, h2, c1, c2)` on a clone of `h1`: bin-by-bin weighted sum
over all bins (underflow and overflow included) when the binnings are
compatible; on incompatible binnings ROOT reports an error and leaves the
clone of the first operand unchanged. -/
def histAdd (c1 : ℚ) (h1 : Hist) (c2 : ℚ) (h2 : Hist) : Hist :=
  if h1.bins.length = h2.bins.length then
    ⟨c1 * h1.under + c2 * h2.under,
      List.zipWith (fun x y => c1 * x + c2 * y) h1.bins h2.bins,
      c1 * h1.over + c2 * h2.over⟩
  else h1

/-- The values flowing through the owls-hep value algebra: scalar counts,
histograms, and uncertainty 4-tuples
`(overall_up, overall_down, shape_up, shape_down)` whose components are
either `None` or again values. -/
inductive Value where
  | scalar (x : ℚ)
  | hist (h : Hist)
  | tup (overall_up overall_down shape_up shape_down : Option Value)

/-- The Python `type()` of a value as dispatched on by `algebra.add`:
number, `TH1`, or `tuple`. -/
inductive ValueKind where
  | scalar
  | hist
  | tup
deriving DecidableEq

/-- Kind of a value. -/
def Value.kind : Value → ValueKind
  | .scalar _ => .scalar
  | .hist _ => .hist
  | .tup _ _ _ _ => .tup

/-- The message of the `ValueError` raised by `algebra.add` on mismatched
operand types. -/
def typeErrorMessage : String := "values must be of the same type"

/-- Embedding of `algebra.multiply`: coefficient times value; for tuples it
recurses into every non-`None` component, for histograms it scales every
bin, otherwise it is plain multiplication. -/
def multiply (coefficient : ℚ) : Value → Value
  | .scalar x => .scalar (coefficient * x)
  | .hist h => .hist (histScale coefficient h)
  | .tup ou od su sd =>
    .tup
      (match ou with | some v => some (multiply coefficient v) | none => none)
      (match od with | some v => some (multiply coefficient v) | none => none)
      (match su with | some v => some (multiply coefficient v) | none => none)
      (match sd with | some v => some (multiply coefficient v) | none => none)
termination_by structural v => v

/-- Embedding of `algebra.add`: verifies that the operand types match (else
the `ValueError`), then dispatches — tuples recurse component-wise with any
`None` pair yielding `None` (a component present in only one operand is never
synthesized), histograms add bin-by-bin, and numbers form
`c1 * v1 + c2 * v2`.  An exception in a recursive call propagates (the
`Except` binds mirror Python exception flow, components in source order). -/
def add (c1 : ℚ) (v1 : Value) (c2 : ℚ) (v2 : Value) : Except String Value :=
  if v1.kind ≠ v2.kind then .error typeErrorMessage
  else
    match v1, v2 with
    | .tup ou1 od1 su1 sd1, .tup ou2 od2 su2 sd2 =>
      (match ou1, ou2 with
       | some x, some y => (add c1 x c2 y).map some
       | _, _ => .ok none).bind fun overall_up =>
      (match od1, od2 with
       | some x, some y => (add c1 x c2 y).map some
       | _, _ => .ok none).bind fun overall_down =>
      (match su1, su2 with
       | some x, some y => (add c1 x c2 y).map some
       | _, _ => .ok none).bind fun shape_up =>
      (match sd1, sd2 with
       | some x, some y => (add c1 x c2 y).map some
       | _, _ => .ok none).bind fun shape_down =>
      .ok (.tup overall_up overall_down shape_up shape_down)
    | .hist h1, .hist h2 => .ok (.hist (histAdd c1 h1 c2 h2))
    | .scalar x, .scalar y => .ok (.scalar (c1 * x + c2 * y))
    | _, _ => .error typeErrorMessage
termination_by structural v1

/-! ### Claim C3: `add` fails fast on mismatched types -/

/-- C3: for operands of different types `add` raises the type error and
produces no result, while for same-typed scalar operands it does not raise
and returns `c1 * v1 + c2 * v2`. -/
theorem add_mismatched_types_fails (c1 c2 x y : ℚ) (v1 v2 : Value)
    (h : v1.kind ≠ v2.kind) :
    add c1 v1 c2 v2 = .error typeErrorMessage ∧
    add c1 (.scalar x) c2 (.scalar y) = .ok (.scalar (c1 * x + c2 * y)) := by
  constructor
  · rw [add.eq_def, if_pos h]
  · rw [add.eq_def]
    simp [Value.kind]

/-- Witness for C3 at concrete values: a scalar/histogram mismatch errors, a
scalar/scalar addition succeeds. -/
theorem add_mismatched_types_fails_witness :
    (Value.scalar 1).kind ≠ (Value.hist ⟨0, [1], 0⟩).kind ∧
    add 1 (.scalar 1) 2 (.hist ⟨0, [1], 0⟩) = .error typeErrorMessage ∧
    add 1 (.scalar 2) 2 (.scalar 3) = .ok (.scalar (1 * 2 + 2 * 3)) := by
  refine ⟨by decide, ?_, ?_⟩
  · exact (add_mismatched_types_fails 1 2 2 3 (.scalar 1) (.hist ⟨0, [1], 0⟩)
      (by decide)).1
  · exact (add_mismatched_types_fails 1 2 2 3 (.scalar 1) (.hist ⟨0, [1], 0⟩)
      (by decide)).2

/-! ### Claim C4: component-wise tuple addition -/

/-- Scalar case of `add`, for reuse. -/
theorem add_scalar_eq (c1 c2 x y : ℚ) :
    add c1 (.scalar x) c2 (.scalar y) = .ok (.scalar (c1 * x + c2 * y)) := by
  rw [add.eq_def]
  simp [Value.kind]

/-- The per-component operation inside `add`'s tuple branch: recursive
addition when both components are present (`None not in (x1, x2)`), `None`
otherwise. -/
def addPair (c1 : ℚ) (o1 : Option Value) (c2 : ℚ) (o2 : Option Value) :
    Except String (Option Value) :=
  match o1, o2 with
  | some x, some y => (add c1 x c2 y).map some
  | _, _ => .ok none

/-- Unfolding of `add` on two 4-tuples as the chain of component additions
in source order. -/
theorem add_tup_eq (c1 c2 : ℚ)
    (ou1 od1 su1 sd1 ou2 od2 su2 sd2 : Option Value) :
    add c1 (.tup ou1 od1 su1 sd1) c2 (.tup ou2 od2 su2 sd2) =
      ((addPair c1 ou1 c2 ou2).bind fun overall_up =>
      (addPair c1 od1 c2 od2).bind fun overall_down =>
      (addPair c1 su1 c2 su2).bind fun shape_up =>
      (addPair c1 sd1 c2 sd2).bind fun shape_down =>
      .ok (.tup overall_up overall_down shape_up shape_down)) := by
  rw [add.eq_def]
  simp [Value.kind, addPair]

/-- Inversion of a successful `Except.bind`. -/
theorem except_bind_eq_ok {α β : Type} {x : Except String α}
    {f : α → Except String β} {b : β} (h : x.bind f = .ok b) :
    ∃ a, x = .ok a ∧ f a = .ok b := by
  cases x with
  | error e => simp [Except.bind] at h
  | ok a => exact ⟨a, rfl, by simpa [Except.bind] using h⟩

/-- The C4 characterization of one result component: it is `None` exactly
when at least one operand component is `None` (never synthesized from a lone
operand), and otherwise it is the recursively computed addition. -/
def addPairSpec (c1 c2 : ℚ) (o1 o2 w : Option Value) : Prop :=
  (w = none ↔ o1 = none ∨ o2 = none) ∧
  ∀ a b, o1 = some a → o2 = some b →
    ∃ r, add c1 a c2 b = .ok r ∧ w = some r

/-- A successful component addition satisfies the C4 characterization. -/
theorem addPair_ok_spec (c1 c2 : ℚ) (o1 o2 w : Option Value)
    (h : addPair c1 o1 c2 o2 = .ok w) : addPairSpec c1 c2 o1 o2 w := by
  cases o1 with
  | none =>
    have hn : (Except.ok (none : Option Value) : Except String (Option Value)) =
        .ok w := by
      rw [← h]
      cases o2 <;> rfl
    injection hn with hn'
    subst hn'
    refine ⟨by simp, ?_⟩
    intro a b ha hb
    exact absurd ha (by simp)
  | some x =>
    cases o2 with
    | none =>
      have hn : (Except.ok (none : Option Value) : Except String (Option Value)) =
          .ok w := by
        rw [← h]
        rfl
      injection hn with hn'
      subst hn'
      refine ⟨by simp, ?_⟩
      intro a b ha hb
      exact absurd hb (by simp)
    | some y =>
      have hs : (add c1 x c2 y).map some = .ok w := h
      cases har : add c1 x c2 y with
      | error e =>
        rw [har] at hs
        simp [Except.map] at hs
      | ok r =>
        rw [har] at hs
        simp only [Except.map] at hs
        injection hs with hs'
        subst hs'
        refine ⟨by simp, ?_⟩
        intro a b ha hb
        injection ha with ha'
        injection hb with hb'
        subst ha'
        subst hb'
        exact ⟨r, har, rfl⟩

/-- C4: a successful `add` of two uncertainty 4-tuples produces a 4-tuple
whose k-th component is `None` exactly when at least one operand's k-th
component is `None`, and otherwise equals the recursive
`add(c1, u_k, c2, v_k)`; a component present in only one operand is never
copied or synthesized into the result. -/
theorem add_tuple_componentwise (c1 c2 : ℚ)
    (ou1 od1 su1 sd1 ou2 od2 su2 sd2 w1 w2 w3 w4 : Option Value)
    (h : add c1 (.tup ou1 od1 su1 sd1) c2 (.tup ou2 od2 su2 sd2) =
      .ok (.tup w1 w2 w3 w4)) :
    addPairSpec c1 c2 ou1 ou2 w1 ∧ addPairSpec c1 c2 od1 od2 w2 ∧
    addPairSpec c1 c2 su1 su2 w3 ∧ addPairSpec c1 c2 sd1 sd2 w4 := by
  rw [add_tup_eq] at h
  obtain ⟨a1, ha1, h⟩ := except_bind_eq_ok h
  obtain ⟨a2, ha2, h⟩ := except_bind_eq_ok h
  obtain ⟨a3, ha3, h⟩ := except_bind_eq_ok h
  obtain ⟨a4, ha4, h⟩ := except_bind_eq_ok h
  injection h with h'
  injection h' with e1 e2 e3 e4
  subst e1
  subst e2
  subst e3
  subst e4
  exact ⟨addPair_ok_spec _ _ _ _ _ ha1, addPair_ok_spec _ _ _ _ _ ha2,
    addPair_ok_spec _ _ _ _ _ ha3, addPair_ok_spec _ _ _ _ _ ha4⟩

/-- Witness for C4 at a concrete tuple addition: the present/present pair is
added recursively, the pairs with a missing operand stay `None`. -/
theorem add_tuple_componentwise_witness :
    add 1 (.tup (some (.scalar 1)) none (some (.scalar 2)) none) 1
        (.tup (some (.scalar 3)) (some (.scalar 4)) none none) =
      .ok (.tup (some (.scalar (1 * 1 + 1 * 3))) none none none) ∧
    addPairSpec 1 1 (some (.scalar 1)) (some (.scalar 3))
      (some (.scalar (1 * 1 + 1 * 3))) := by
  have h : add 1 (.tup (some (.scalar 1)) none (some (.scalar 2)) none) 1
      (.tup (some (.scalar 3)) (some (.scalar 4)) none none) =
      .ok (.tup (some (.scalar (1 * 1 + 1 * 3))) none none none) := by
    rw [add_tup_eq]
    simp [addPair, add_scalar_eq, Except.map, Except.bind]
  exact ⟨h, (add_tuple_componentwise 1 1 _ _ _ _ _ _ _ _ _ _ _ _ h).1⟩

/-! ### Uncertainty algebra (`owls_hep/uncertainty.py`) -/

/-- Embedding of `uncertainty.sum_quadrature`: `sqrt(sum(x**2))`.  Real
square roots have no executable representation, so the uncertainty-band layer
is the one noncomputable corner of the embedding. -/
noncomputable def sum_quadrature (values : List ℝ) : ℝ :=
  Real.sqrt (values.map (fun x => x ^ 2)).sum

/-- `h.Integral(1, h.GetNbinsX())`: the integral over the regular bins,
excluding underflow and overflow. -/
def Hist.integral (h : Hist) : ℚ :=
  h.bins.sum

/-- Embedding of `uncertainty.to_overall`: the ratio of the varied shape's
integral to the nominal's integral, defined as `0` when the nominal integral
is `0`. -/
def to_overall (shape nominal : Hist) : ℚ :=
  if nominal.integral = 0 then 0
  else shape.integral / nominal.integral

/-- Python `TypeError` stand-ins for `to_shape` applied outside its domain
(`multiply` with a non-numeric coefficient, tuple unpacking of a non-tuple). -/
def overallComponentError : String := "overall components must be numbers"

/-- Python `TypeError` stand-in for unpacking a non-tuple uncertainty. -/
def tupleExpectedError : String := "uncertainty must be a 4-tuple"

/-- Embedding of `uncertainty.to_shape`: when either overall component is
missing the uncertainty is returned as-is; otherwise the result is
`(None, None, overall_up * nominal, overall_down * nominal)`, discarding any
pre-existing shape components. -/
def to_shape (uncertainty nominal : Value) : Except String Value :=
  match uncertainty with
  | .tup ou od su sd =>
    match ou, od with
    | none, _ => .ok uncertainty
    | _, none => .ok uncertainty
    | some (.scalar a), some (.scalar b) =>
      .ok (.tup none none (some (multiply a nominal)) (some (multiply b nominal)))
    | some _, some _ => .error overallComponentError
  | _ => .error tupleExpectedError

/-! ### Claim C10: `to_shape` behaviour -/

/-- C10: with a missing overall component `to_shape` returns the tuple
unchanged (shape components preserved); with both overall components present
it multiplies each into the nominal and discards pre-existing shape
components. -/
theorem to_shape_overall_precedence (a b : ℚ) (ou od su sd : Option Value)
    (nominal : Value) (h : ou = none ∨ od = none) :
    to_shape (.tup ou od su sd) nominal = .ok (.tup ou od su sd) ∧
    to_shape (.tup (some (.scalar a)) (some (.scalar b)) su sd) nominal =
      .ok (.tup none none (some (multiply a nominal))
        (some (multiply b nominal))) := by
  constructor
  · rcases h with h | h
    · subst h
      cases od with
      | none => rfl
      | some v => cases v <;> rfl
    · subst h
      cases ou with
      | none => rfl
      | some v => cases v <;> rfl
  · rfl

/-- Witness for C10 at concrete tuples. -/
theorem to_shape_overall_precedence_witness :
    ((none : Option Value) = none ∨ (some (Value.scalar 7) : Option Value) = none) ∧
    to_shape (.tup none (some (.scalar 7)) (some (.hist ⟨0, [9], 9⟩)) none)
        (.hist ⟨0, [5], 0⟩) =
      .ok (.tup none (some (.scalar 7)) (some (.hist ⟨0, [9], 9⟩)) none) ∧
    to_shape (.tup (some (.scalar 2)) (some (.scalar 3))
        (some (.hist ⟨0, [9], 9⟩)) none) (.hist ⟨0, [5], 0⟩) =
      .ok (.tup none none (some (multiply 2 (.hist ⟨0, [5], 0⟩)))
        (some (multiply 3 (.hist ⟨0, [5], 0⟩)))) :=
  ⟨Or.inl rfl,
    (to_shape_overall_precedence 2 3 none (some (.scalar 7))
      (some (.hist ⟨0, [9], 9⟩)) none (.hist ⟨0, [5], 0⟩) (Or.inl rfl)).1,
    (to_shape_overall_precedence 2 3 none (some (.scalar 7))
      (some (.hist ⟨0, [9], 9⟩)) none (.hist ⟨0, [5], 0⟩) (Or.inl rfl)).2⟩

/-! ### Claim C7: overall/shape conversion round-trip -/

/-- A flat histogram: all regular bins hold the same content. -/
def Hist.flat (h : Hist) : Prop :=
  ∀ x ∈ h.bins, ∀ y ∈ h.bins, x = y

/-- Scaling every bin scales the integral. -/
theorem integral_histScale (c : ℚ) (h : Hist) :
    (histScale c h).integral = c * h.integral := by
  unfold Hist.integral histScale
  induction h.bins with
  | nil => simp
  | cons x rest ih => simp [mul_add, ih]

/-- C7: converting an overall-only uncertainty `(u, d, None, None)` to shape
against a nominal histogram and converting each resulting shape component
back with `to_overall` against the same nominal recovers `(u, d)` exactly
(the model uses exact rational arithmetic, so "within floating tolerance"
sharpens to equality), for every flat nominal with non-zero integral. -/
theorem to_shape_to_overall_roundtrip (u d : ℚ) (nom : Hist)
    (hflat : nom.flat) (hnz : nom.integral ≠ 0) :
    ∃ hu hd : Hist,
      to_shape (.tup (some (.scalar u)) (some (.scalar d)) none none)
          (.hist nom) =
        .ok (.tup none none (some (.hist hu)) (some (.hist hd))) ∧
      to_overall hu nom = u ∧ to_overall hd nom = d := by
  refine ⟨histScale u nom, histScale d nom, ?_, ?_, ?_⟩
  · rfl
  · unfold to_overall
    rw [if_neg hnz, integral_histScale, mul_div_assoc, div_self hnz, mul_one]
  · unfold to_overall
    rw [if_neg hnz, integral_histScale, mul_div_assoc, div_self hnz, mul_one]

/-- Witness for C7 on a flat two-bin nominal and the overall pair
`(11/10, 9/10)`. -/
theorem to_shape_to_overall_roundtrip_witness :
    (Hist.mk 0 [5, 5] 0).flat ∧ (Hist.mk 0 [5, 5] 0).integral ≠ 0 ∧
    (∃ hu hd : Hist,
      to_shape (.tup (some (.scalar (11 / 10))) (some (.scalar (9 / 10)))
          none none) (.hist (Hist.mk 0 [5, 5] 0)) =
        .ok (.tup none none (some (.hist hu)) (some (.hist hd))) ∧
      to_overall hu (Hist.mk 0 [5, 5] 0) = 11 / 10 ∧
      to_overall hd (Hist.mk 0 [5, 5] 0) = 9 / 10) := by
  have hflat : (Hist.mk 0 [5, 5] 0).flat := by
    simp [Hist.flat]
  have hnz : (Hist.mk 0 [5, 5] 0).integral ≠ 0 := by
    simp [Hist.integral]
  exact ⟨hflat, hnz,
    to_shape_to_overall_roundtrip (11 / 10) (9 / 10) (Hist.mk 0 [5, 5] 0)
      hflat hnz⟩

/-! ### Claim C8: statistical uncertainty -/

/-- Modelled from the spec: the `StatisticalUncertainty` calculation on a
scalar count is not present under `src/` (only the per-bin statistical branch
of `uncertainty_band` is); per the spec the band of a scalar result `v` is
`(v + sqrt(|v|), v - sqrt(|v|))`. -/
noncomputable def statisticalScalarBand (v : ℝ) : ℝ × ℝ :=
  (v + Real.sqrt |v|, v - Real.sqrt |v|)

/-- The list of fractional variations collected for a bin in statistical
mode: the statistical variation `(content / sqrt(unweighted)) / content` when
both contents are positive, nothing otherwise (the `up_variations` and
`down_variations` lists of the source receive the identical entry). -/
noncomputable def statVariations (content unweighted_content : ℚ) : List ℝ :=
  if 0 < content ∧ 0 < unweighted_content then
    [((content : ℝ) / Real.sqrt (unweighted_content : ℝ)) / (content : ℝ)]
  else []

/-- The per-bin body of `uncertainty_band` in statistical mode
(`uncertainty is None`): a bin with content `0` gets zero errors; otherwise
the high and low errors are the quadrature sums of the up and down variation
lists, scaled back to absolute by the content. -/
noncomputable def statBandEntry (content unweighted_content : ℚ) : ℝ × ℝ :=
  if content = 0 then (0, 0)
  else
    (sum_quadrature (statVariations content unweighted_content) * (content : ℝ),
      sum_quadrature (statVariations content unweighted_content) * (content : ℝ))

/-- The statistical branch of `uncertainty_band`: one `(high, low)` error
pair per regular bin (the loop runs `bin` from `1` to `GetNbinsX()`, so the
underflow and overflow bins contribute no band point), pairing the nominal
bin content with the unweighted bin content. -/
noncomputable def statBand (nominal unweighted : Hist) : List (ℝ × ℝ) :=
  (nominal.bins.zip unweighted.bins).map fun cu => statBandEntry cu.1 cu.2

/-- C8 counterexample: on a weighted sample (nominal bin content 4 from one
unweighted event) the statistical band error is `4 = content/sqrt(unweighted)`,
not `sqrt(|content|) = 2`; moreover the band has a point only for the single
regular bin — the underflow content 7 and overflow content 9 contribute
nothing. -/
theorem statistical_band_not_sqrt_content :
    statBand ⟨7, [4], 9⟩ ⟨7, [1], 9⟩ = [(4, 4)] ∧
    (4 : ℝ) ≠ Real.sqrt |(4 : ℝ)| := by
  constructor
  · have hvars : statVariations 4 1 = [4 / Real.sqrt 1 / 4] := by
      rw [statVariations, if_pos (by constructor <;> norm_num)]
      push_cast
      rfl
    have hentry : statBandEntry 4 1 = (4, 4) := by
      rw [statBandEntry, if_neg (by norm_num), hvars]
      unfold sum_quadrature
      rw [Real.sqrt_one]
      norm_num
    show [statBandEntry 4 1] = [(4, 4)]
    rw [hentry]
  · have h4 : Real.sqrt |(4 : ℝ)| = 2 := by
      rw [show |(4 : ℝ)| = 2 ^ 2 by norm_num,
        Real.sqrt_sq (by norm_num : (0 : ℝ) ≤ 2)]
    rw [h4]
    norm_num

/-- C8 (amended): the scalar statistical band (spec-modelled, absent from
`src/`) is `(v + sqrt|v|, v - sqrt|v|)`, giving `(110, 90)` at `v = 100`;
per-bin, the band of `uncertainty_band` carries the error
`content / sqrt(unweighted_content)` both up and down for every regular bin
with positive contents — which reduces to `sqrt(content)` exactly when the
unweighted content equals the content (unit weights) — and the band is
independent of the underflow and overflow bin contents, which contribute no
band point. -/
theorem statistical_uncertainty_band_spec (c u : ℚ) (hc : 0 < c) (hu : 0 < u) :
    statisticalScalarBand 100 = (110, 90) ∧
    statBandEntry c u =
      ((c : ℝ) / Real.sqrt (u : ℝ), (c : ℝ) / Real.sqrt (u : ℝ)) ∧
    (u = c → statBandEntry c u = (Real.sqrt (c : ℝ), Real.sqrt (c : ℝ))) ∧
    (∀ (a b a' b' : ℚ) (bins ubins : List ℚ),
      statBand ⟨a, bins, b⟩ ⟨a', ubins, b'⟩ = statBand ⟨0, bins, 0⟩ ⟨0, ubins, 0⟩) := by
  have hcR : (0 : ℝ) < (c : ℝ) := by exact_mod_cast hc
  have huR : (0 : ℝ) < (u : ℝ) := by exact_mod_cast hu
  have hmain : statBandEntry c u =
      ((c : ℝ) / Real.sqrt (u : ℝ), (c : ℝ) / Real.sqrt (u : ℝ)) := by
    rw [statBandEntry, if_neg hc.ne', statVariations, if_pos ⟨hc, hu⟩]
    unfold sum_quadrature
    have hx : (0 : ℝ) ≤ ((c : ℝ) / Real.sqrt (u : ℝ)) / (c : ℝ) := by
      positivity
    rw [List.map_cons, List.map_nil, List.sum_cons, List.sum_nil, add_zero,
      Real.sqrt_sq hx, div_mul_cancel₀ _ hcR.ne']
  refine ⟨?_, hmain, ?_, ?_⟩
  · rw [statisticalScalarBand]
    rw [show |(100 : ℝ)| = 10 ^ 2 by norm_num,
      Real.sqrt_sq (by norm_num : (0 : ℝ) ≤ 10)]
    norm_num
  · intro hueq
    subst hueq
    rw [hmain, Real.div_sqrt]
  · intro a b a' b' bins ubins
    rfl

/-- Witness for C8 (amended) at bin content 4 with unweighted content 1. -/
theorem statistical_uncertainty_band_spec_witness :
    (0 : ℚ) < 4 ∧ (0 : ℚ) < 1 ∧
    statisticalScalarBand 100 = (110, 90) ∧
    statBandEntry 4 1 =
      (((4 : ℚ) : ℝ) / Real.sqrt ((1 : ℚ) : ℝ),
        ((4 : ℚ) : ℝ) / Real.sqrt ((1 : ℚ) : ℝ)) := by
  refine ⟨by simp, by simp, ?_, ?_⟩
  · exact (statistical_uncertainty_band_spec 4 1 (by simp) (by simp)).1
  · exact (statistical_uncertainty_band_spec 4 1 (by simp) (by simp)).2.1

/-! ### Estimation (`owls_hep/estimation.py`) -/

/-- The message of the `ValueError` raised by `Estimation.__call__` on an
empty component list. -/
def emptyComponentsError : String := "must have at least one component for estimation"

/-- Python `TypeError` stand-in for `multiply(coefficient, None)` — a shape
component expected by the uncertainty fold is missing. -/
def missingShapeError : String := "shape component is missing"

/-- The underlying calculation of an `Estimation`: either a plain
(non-uncertainty) calculation, or an `Uncertainty` together with its own
underlying nominal calculation (`self.calculation.calculation`). -/
inductive EstCalc where
  | plain (f : Process → Region → Value)
  | unc (f : Process → Region → Value) (nominal : Process → Region → Value)

/-- The `nominal` inner function of `Estimation.__call__`: a faux-uncertainty
tuple whose shape components are both the coefficient-scaled nominal value. -/
def estNominal (nominal : Process → Region → Value) (coefficient : ℚ)
    (p : Process) (r : Region) : Value :=
  .tup none none (some (multiply coefficient (nominal p r)))
    (some (multiply coefficient (nominal p r)))

/-- The `uncertainty` inner function of `Estimation.__call__`: computes the
component's uncertainty, converts any overall systematics to shape relative
to the component's own nominal, and scales the shape components by the
coefficient. -/
def estUncertainty (f nominal : Process → Region → Value) (coefficient : ℚ)
    (p : Process) (r : Region) : Except String Value :=
  (to_shape (f p r) (nominal p r)).bind fun u =>
    match u with
    | .tup _ _ (some shape_up) (some shape_down) =>
      .ok (.tup none none (some (multiply coefficient shape_up))
        (some (multiply coefficient shape_down)))
    | _ => .error missingShapeError

/-- One estimation component's value in the uncertainty case, selected by the
`use_nominal` flag. -/
def estComponentValue (f nominal : Process → Region → Value) (coefficient : ℚ)
    (use_nominal : Bool) (p : Process) (r : Region) : Except String Value :=
  if use_nominal then .ok (estNominal nominal coefficient p r)
  else estUncertainty f nominal coefficient p r

/-- The `result[2]`/`result[3]` tuple indexing of the uncertainty fold. -/
def shapeComponents : Value → Except String (Value × Value)
  | .tup _ _ (some shape_up) (some shape_down) => .ok (shape_up, shape_down)
  | _ => .error missingShapeError

/-- Embedding of `Estimation.__call__`: raises on an empty component list;
without weighted combination all coefficients become `1`; for a
non-uncertainty calculation the first component seeds the result as
`multiply(coefficient, calculation(p, r))` and every further component is
folded in with `add(1, result, coefficient, calculation(p, r))`; for an
uncertainty calculation the components are first converted to
faux-uncertainty tuples and their shape components are added pairwise, the
overall slots staying `None`. -/
def estimationCall (calculation : EstCalc)
    (components : List (ℚ × Bool × Process × Region))
    (weighted_combination : Bool) : Except String Value :=
  match components with
  | [] => .error emptyComponentsError
  | c0 :: crest =>
    match (if weighted_combination then c0 :: crest
           else (c0 :: crest).map fun x => (1, x.2.1, x.2.2.1, x.2.2.2)) with
    | [] => .error emptyComponentsError
    | d0 :: drest =>
      match calculation with
      | .plain f =>
        drest.foldlM (fun result d => add 1 result d.1 (f d.2.2.1 d.2.2.2))
          (multiply d0.1 (f d0.2.2.1 d0.2.2.2))
      | .unc f nominal =>
        (estComponentValue f nominal d0.1 d0.2.1 d0.2.2.1 d0.2.2.2).bind
          fun first =>
          drest.foldlM (fun result d =>
            (estComponentValue f nominal d.1 d.2.1 d.2.2.1 d.2.2.2).bind
              fun value =>
            (shapeComponents result).bind fun rs =>
            (shapeComponents value).bind fun vs =>
            (add 1 rs.1 1 vs.1).bind fun shape_up =>
            (add 1 rs.2 1 vs.2).bind fun shape_down =>
            .ok (.tup none none (some shape_up) (some shape_down))) first

/-! ### Claim C5: weighted combination of estimation components -/

/-- The scalar case of `multiply`, for reuse. -/
theorem multiply_scalar (c x : ℚ) :
    multiply c (.scalar x) = .scalar (c * x) := by
  rw [multiply.eq_def]

/-- Folding scalar additions accumulates the weighted sum. -/
theorem foldlM_add_scalar {α : Type} (coef val : α → ℚ) (l : List α) (a : ℚ) :
    l.foldlM (fun result d => add 1 result (coef d) (Value.scalar (val d)))
      (Value.scalar a) =
    .ok (.scalar (a + (l.map fun d => coef d * val d).sum)) := by
  induction l generalizing a with
  | nil => simp [List.foldlM, pure, Except.pure]
  | cons d rest ih =>
    rw [List.foldlM_cons, add_scalar_eq]
    show (Except.ok (Value.scalar (1 * a + coef d * val d))).bind _ = _
    rw [Except.bind]
    rw [ih]
    rw [List.map_cons, List.sum_cons, one_mul, add_assoc]

/-- The non-uncertainty estimation over a scalar-valued calculation is the
weighted sum of the component results. -/
theorem estimation_plain_scalar_sum (count : Process → Region → ℚ)
    (comps : List (ℚ × Bool × Process × Region)) (hne : comps ≠ []) :
    estimationCall (.plain fun p r => .scalar (count p r)) comps true =
      .ok (.scalar ((comps.map fun x => x.1 * count x.2.2.1 x.2.2.2).sum)) := by
  match comps with
  | [] => exact absurd rfl hne
  | c0 :: crest =>
    rw [estimationCall]
    simp only [if_true]
    rw [multiply_scalar]
    rw [foldlM_add_scalar (fun d : ℚ × Bool × Process × Region => d.1)
      (fun d : ℚ × Bool × Process × Region => count d.2.2.1 d.2.2.2) crest
      (c0.1 * count c0.2.2.1 c0.2.2.2)]
    simp

/-- C5: calling an estimation whose underlying calculation is not an
uncertainty, with weighted combination and a non-empty component list,
returns the weighted sum of `coefficient_i * calculation(process_i,
region_i)` under the value algebra; in particular the components
`[(1, False, A, R), (-1, False, B, R)]` over a scalar count produce
`count(A, R) - count(B, R)`. -/
theorem estimation_weighted_sum (count : Process → Region → ℚ)
    (comps : List (ℚ × Bool × Process × Region)) (hne : comps ≠ []) :
    estimationCall (.plain fun p r => .scalar (count p r)) comps true =
      .ok (.scalar ((comps.map fun x => x.1 * count x.2.2.1 x.2.2.2).sum)) ∧
    ∀ (A B : Process) (R : Region),
      estimationCall (.plain fun p r => .scalar (count p r))
          [(1, false, A, R), (-1, false, B, R)] true =
        .ok (.scalar (count A R - count B R)) := by
  constructor
  · exact estimation_plain_scalar_sum count comps hne
  · intro A B R
    rw [estimation_plain_scalar_sum count _ (by simp)]
    have harith : ((([(1, false, A, R), ((-1 : ℚ), false, B, R)] :
        List (ℚ × Bool × Process × Region)).map
          fun x => x.1 * count x.2.2.1 x.2.2.2).sum) =
        count A R - count B R := by
      simp
      ring
    rw [harith]

/-- Concrete data for the C5 witness. -/
def witProcessA : Process := ⟨["a.root"], "t1", "A", 1, 0, none, none, []⟩

/-- Concrete data for the C5 witness. -/
def witProcessB : Process := ⟨["b.root"], "t2", "B", 1, 0, none, none, []⟩

/-- Concrete data for the C5 witness. -/
def witRegion : Region := ⟨"x > 0", "w", "R", "", true, []⟩

/-- Concrete scalar calculation for the C5 witness. -/
def witCount : Process → Region → ℚ :=
  fun p _ => if p.tree = "t1" then 10 else 4

/-- Witness for C5: the subtraction scenario at concrete processes. -/
theorem estimation_weighted_sum_witness :
    ([((1 : ℚ), false, witProcessA, witRegion),
      (-1, false, witProcessB, witRegion)] :
      List (ℚ × Bool × Process × Region)) ≠ [] ∧
    estimationCall (.plain fun p r => .scalar (witCount p r))
        [(1, false, witProcessA, witRegion), (-1, false, witProcessB, witRegion)]
        true =
      .ok (.scalar (witCount witProcessA witRegion -
        witCount witProcessB witRegion)) := by
  refine ⟨by simp, ?_⟩
  exact (estimation_weighted_sum witCount
    [(1, false, witProcessA, witRegion), (-1, false, witProcessB, witRegion)]
    (by simp)).2 witProcessA witProcessB witRegion

/-! ### Parallel histogramming batcher (`owls_hep/histogramming.py`) -/

/-- One queued `_histogram` call as seen by `_parallel_batcher` through
`_parallel_extractor`: the batcher reads only the region and the expression
tuple (`_, region, expressions, _`); binnings carry no data-column
requirements and the process is only the grouping key. -/
structure HistCall where
  process : Process
  region : Region
  expressions : List String

/-- The property-union loop of `_parallel_batcher`: for every call in the
batch it adds the properties of the region selection, of the region weight,
and of every histogram expression to the running set. -/
def batchProperties (calls : List HistCall) : Finset String :=
  calls.foldl
    (fun all_properties call =>
      call.expressions.foldl (fun acc e => acc ∪ properties e)
        ((all_properties ∪ properties call.region.selection_weight.1) ∪
          properties call.region.selection_weight.2))
    ∅

/-- Embedding of `_parallel_batcher`: computes the combined property set
once, then invokes the wrapped function for every `(args, kwargs)` pair of
the batch in order, injecting the set as the `load_hints` keyword argument.
The result models the exact sequence of invocations with their hint. -/
def parallelBatcher (calls : List HistCall) : List (HistCall × Finset String) :=
  calls.map fun call => (call, batchProperties calls)

/-! ### Claim C9: batcher invocations and load hints -/

/-- Membership in the expression fold of one call. -/
theorem mem_foldl_properties (es : List String) (init : Finset String)
    (x : String) :
    (x ∈ es.foldl (fun acc e => acc ∪ properties e) init) ↔
      x ∈ init ∨ ∃ e ∈ es, x ∈ properties e := by
  induction es generalizing init with
  | nil => simp
  | cons e rest ih =>
    rw [List.foldl_cons, ih]
    simp [Finset.mem_union, or_assoc]

/-- Membership in the batch property union. -/
theorem mem_batchProperties (calls : List HistCall) (x : String) :
    x ∈ batchProperties calls ↔
      ∃ call ∈ calls,
        x ∈ properties call.region.selection_weight.1 ∨
        x ∈ properties call.region.selection_weight.2 ∨
        ∃ e ∈ call.expressions, x ∈ properties e := by
  unfold batchProperties
  have hgen : ∀ (cs : List HistCall) (init : Finset String),
      (x ∈ cs.foldl
        (fun all_properties call =>
          call.expressions.foldl (fun acc e => acc ∪ properties e)
            ((all_properties ∪ properties call.region.selection_weight.1) ∪
              properties call.region.selection_weight.2)) init) ↔
      x ∈ init ∨ ∃ call ∈ cs,
        x ∈ properties call.region.selection_weight.1 ∨
        x ∈ properties call.region.selection_weight.2 ∨
        ∃ e ∈ call.expressions, x ∈ properties e := by
    intro cs
    induction cs with
    | nil => simp
    | cons call rest ih =>
      intro init
      rw [List.foldl_cons, ih, mem_foldl_properties]
      simp only [Finset.mem_union, List.mem_cons]
      aesop
  rw [hgen]
  simp

/-- C9: for every batch handed to the parallel batcher, the wrapped callable
is invoked exactly once per queued call, in order, and every invocation
receives a `load_hints` set containing exactly the union, over all calls of
the batch, of the properties of the call's region selection, region weight,
and histogram expressions. -/
theorem batcher_one_call_each_with_union_hints (calls : List HistCall) :
    (parallelBatcher calls).map Prod.fst = calls ∧
    ∀ p ∈ parallelBatcher calls, ∀ x : String,
      x ∈ p.2 ↔ ∃ call ∈ calls,
        x ∈ properties call.region.selection_weight.1 ∨
        x ∈ properties call.region.selection_weight.2 ∨
        ∃ e ∈ call.expressions, x ∈ properties e := by
  constructor
  · unfold parallelBatcher
    rw [List.map_map]
    have hid : (Prod.fst ∘ fun call : HistCall =>
        (call, batchProperties calls)) = id := rfl
    rw [hid, List.map_id]
  · intro p hp x
    unfold parallelBatcher at hp
    obtain ⟨call, hcall, rfl⟩ := List.mem_map.mp hp
    exact mem_batchProperties calls x

/-! ### Agreement with the repository's own expression tests
(`testing/test_expression.py`) -/

/-- The embedded scan reproduces `test_properties`:
`properties('electron_pt > (x * x)') == {'electron_pt', 'x'}` (the scan
yields the duplicate occurrence of `x`, deduplicated by the set). -/
theorem identScan_matches_repo_test :
    identScan "electron_pt > (x * x)".data = ["electron_pt", "x", "x"] := by
  decide

/-- The embedded translation reproduces `test_normalize`:
`normalized('!x && y || z') == '~x & y | z'`. -/
theorem normalized_matches_repo_test :
    normalized "!x && y || z" = "~x & y | z" := by
  decide

/-- The embedded composition reproduces `test_multiplied`. -/
theorem multiplied_matches_repo_test :
    multiplied "x + y > 8" "3 < (z - y)**2" =
      "((x + y > 8) * (3 < (z - y)**2))" := by
  decide
